import Mathlib

/-!
Shallow embedding of the core of `rust-tcp-chat` (files
`src/bin/chat_message/mod.rs` and `src/bin/server.rs`).

Rust `String` values are modeled as `List Char` (a Rust string is a
sequence of chars; byte-level UTF-8 details are outside the embedding).
Pure functions become Lean functions; the per-connection reader loop and
the broadcast loop become step functions over explicit state, with a
`.unwrap()` panic modeled as `Option.none`.
-/

set_option autoImplicit false

namespace RustTcpChat

/-- `ChatMessage` from `chat_message/mod.rs`: `username` and `content`,
both Rust `String`s (modeled as `List Char`). -/
structure ChatMessage where
  username : List Char
  content : List Char
deriving DecidableEq

/-- `ChatMessage::default()`: both fields are the empty string
(`#[derive(Default)]` on two `String` fields). -/
def ChatMessage.default : ChatMessage := ⟨[], []⟩

/-- Rust `value.split(':').collect::<Vec<&str>>()`: split a string on every
occurrence of the char `':'`.  As in Rust, the empty string yields `[""]`,
and `n` colons yield `n + 1` pieces. -/
def splitColon : List Char → List (List Char)
  | [] => [[]]
  | c :: cs =>
    if c = ':' then [] :: splitColon cs
    else
      match splitColon cs with
      | [] => [[c]]
      | p :: ps => (c :: p) :: ps

/-- `impl From<String> for ChatMessage` (the decoder): split on `':'`;
if the split has exactly two parts they become username and content,
otherwise return `ChatMessage::default()`. -/
def chatMessageFrom (value : List Char) : ChatMessage :=
  match splitColon value with
  | [u, c] => ⟨u, c⟩
  | _ => ChatMessage.default

/-- `impl ToString for ChatMessage` (the encoder):
`format!("{}: {}", self.username, self.content)`. -/
def ChatMessage.toString (m : ChatMessage) : List Char :=
  m.username ++ ':' :: ' ' :: m.content

theorem splitColon_ne_nil (s : List Char) : splitColon s ≠ [] := by
  cases s with
  | nil => simp [splitColon]
  | cons c cs =>
    simp only [splitColon]
    split
    · simp
    · cases h : splitColon cs <;> simp

theorem splitColon_length (s : List Char) :
    (splitColon s).length = s.count ':' + 1 := by
  induction s with
  | nil => simp [splitColon]
  | cons c cs ih =>
    simp only [splitColon]
    by_cases hc : c = ':'
    · subst hc
      simp [List.count_cons, ih]
    · rw [if_neg hc]
      cases h : splitColon cs with
      | nil => exact absurd h (splitColon_ne_nil cs)
      | cons p ps =>
        rw [h] at ih
        simp only [List.length_cons] at ih ⊢
        simpa [List.count_cons, hc] using ih

theorem splitColon_of_no_colon {s : List Char} (h : ':' ∉ s) :
    splitColon s = [s] := by
  induction s with
  | nil => rfl
  | cons c cs ih =>
    simp only [List.mem_cons, not_or] at h
    simp only [splitColon, if_neg (Ne.symm h.1), ih h.2]

theorem splitColon_append {u : List Char} (v : List Char) (h : ':' ∉ u) :
    splitColon (u ++ ':' :: v) = u :: splitColon v := by
  induction u with
  | nil => simp [splitColon]
  | cons c cs ih =>
    simp only [List.mem_cons, not_or] at h
    simp only [List.cons_append, splitColon, if_neg (Ne.symm h.1),
      List.append_eq, ih h.2]

theorem chatMessageFrom_of_no_colon {u v : List Char}
    (hu : ':' ∉ u) (hv : ':' ∉ v) :
    chatMessageFrom (u ++ ':' :: v) = ⟨u, v⟩ := by
  rw [chatMessageFrom, splitColon_append v hu, splitColon_of_no_colon hv]

theorem chatMessageFrom_of_length_ne_two {s : List Char}
    (h : (splitColon s).length ≠ 2) :
    chatMessageFrom s = ChatMessage.default := by
  rw [chatMessageFrom]
  rcases hs : splitColon s with _ | ⟨a, _ | ⟨b, _ | _⟩⟩ <;> simp_all

section Server

/- `server.rs`.  The connection registry `wt_sockets` is a
`Vec<(SocketAddr, WriteHalf<TcpStream>)>`; identities `A` (socket
addresses) and write halves `W` are abstract types. -/

variable {A W : Type} [DecidableEq A]

/-- Line 39 of `server.rs`:
`wt_sockets.lock().await.push((addr.clone(), socket_wt));` —
registration appends the pair at the end of the vector, with no check. -/
def register (a : A) (w : W) (reg : List (A × W)) : List (A × W) :=
  reg ++ [(a, w)]

/-- Lines 62-67 of `server.rs`:
`let idx = wt_sockets.iter().position(|e| e.0 == addr);` followed by
`if let Some(idx) = idx { wt_sockets.remove(idx); }` —
remove the first entry whose identity matches, if any. -/
def unregister (a : A) (reg : List (A × W)) : List (A × W) :=
  match reg.findIdx? (fun e => e.fst = a) with
  | some i => reg.eraseIdx i
  | none => reg

/-- Result of one `socket_rd.read(&mut buff).await`: `Ok(num_bytes)`
together with `String::from_utf8_lossy(&buff[..num_bytes])` (as a char
list; `numBytes = 0` forces `data = []`, but like the code the step only
inspects `numBytes`), or `Err(_)`. -/
inductive ReadResult where
  | ok (numBytes : Nat) (data : List Char)
  | err

/-- State visible to one per-connection reader task: the shared registry,
the contents of the inbound mpsc channel (pushes append at the end), and
whether the task has ended its loop (`break`). -/
structure ReaderState (A W : Type) where
  registry : List (A × W)
  queue : List (A × ChatMessage)
  closed : Bool
deriving DecidableEq

/-- One iteration of the reader loop, lines 50-70 of `server.rs`:
on `Ok(num_bytes)` with `num_bytes > 0`, decode the buffer and send
`(addr, chat_message)` on the channel; on `Ok(0)`, do nothing; on
`Err(_)`, remove this connection from the registry and `break`. -/
def readerStep (addr : A) (s : ReaderState A W) : ReadResult → ReaderState A W
  | .ok numBytes data =>
    if 0 < numBytes then
      { s with queue := s.queue ++ [(addr, chatMessageFrom data)] }
    else s
  | .err =>
    { registry := unregister addr s.registry, queue := s.queue, closed := true }

/-- The broadcast loop body, lines 89-94 of `server.rs`: iterate the
registry in order; for each entry whose identity differs from the sender,
write the payload (`wt.write(..).await.unwrap(); wt.flush().await.unwrap()`).
`fails a = true` means the write for the connection registered under `a`
returns `Err`; the `.unwrap()` then panics, aborting the whole task —
modeled as `none`.  `some ds` collects the successful deliveries
`(identity, payload)` in iteration order. -/
def broadcastRun (sender : A) (payload : List Char) (fails : A → Bool) :
    List (A × W) → Option (List (A × List Char))
  | [] => some []
  | e :: rest =>
    if e.fst ≠ sender then
      if fails e.fst then none
      else (broadcastRun sender payload fails rest).map
        (fun ds => (e.fst, payload) :: ds)
    else broadcastRun sender payload fails rest

end Server

/-! Claims -/

/-- Claim C1: for every `ChatMessage` whose serialized form contains
exactly one `':'`, decoding the encoding yields back the username exactly
and the content up to the fixed `": "` separator inserted by encode: the
separator's space is the only difference, prepended to the content. -/
theorem decode_encode_roundtrip (m : ChatMessage)
    (h : m.toString.count ':' = 1) :
    chatMessageFrom m.toString = ⟨m.username, ' ' :: m.content⟩ := by
  rw [ChatMessage.toString, List.count_append, List.count_cons,
    List.count_cons] at h
  simp only [beq_self_eq_true, if_true] at h
  have hu : ':' ∉ m.username := by
    rw [← List.count_eq_zero]
    omega
  have hv : ':' ∉ ' ' :: m.content := by
    rw [List.mem_cons, not_or, ← List.count_eq_zero]
    exact ⟨by decide, by simp at h; omega⟩
  exact chatMessageFrom_of_no_colon hu hv

theorem decode_encode_roundtrip_witness :
    (ChatMessage.toString ⟨['a', 'b'], ['c', 'd']⟩).count ':' = 1
    ∧ chatMessageFrom (ChatMessage.toString ⟨['a', 'b'], ['c', 'd']⟩)
        = ⟨['a', 'b'], ' ' :: ['c', 'd']⟩ :=
  ⟨by decide, decode_encode_roundtrip ⟨['a', 'b'], ['c', 'd']⟩ (by decide)⟩

/-- Claim C2: an input payload containing zero colons, or two or more
colons, decodes to the default message (username = "", content = ""). -/
theorem decode_nonsingle_colon_default (s : List Char)
    (h : s.count ':' = 0 ∨ 2 ≤ s.count ':') :
    chatMessageFrom s = ChatMessage.default := by
  apply chatMessageFrom_of_length_ne_two
  rw [splitColon_length]
  omega

theorem decode_nonsingle_colon_default_witness :
    ("garbage-no-colon".data.count ':' = 0 ∨ 2 ≤ "garbage-no-colon".data.count ':')
    ∧ chatMessageFrom "garbage-no-colon".data = ChatMessage.default :=
  ⟨by decide, decode_nonsingle_colon_default "garbage-no-colon".data (by decide)⟩

/-- Claim C3 counterexample: the decoder does NOT split on the first `':'`
only.  On `"a:b:c"` (which splits at the first `':'` into the two parts
`"a"` and `"b:c"`), the code splits on every `':'`, gets three parts, and
returns the default message instead of `⟨"a", "b:c"⟩`. -/
theorem decode_first_colon_cex :
    chatMessageFrom ['a', ':', 'b', ':', 'c'] = ChatMessage.default
    ∧ chatMessageFrom ['a', ':', 'b', ':', 'c'] ≠ ⟨['a'], ['b', ':', 'c']⟩ := by
  decide

/-- Claim C3 amended: the decoder splits its input on every `':'`; only
when that split yields exactly two parts (the input has exactly one `':'`)
does it take the text before the `':'` as username and the text after as
content; for any other colon count it returns the default message. -/
theorem decode_split_characterization (u v s : List Char) :
    (':' ∉ u → ':' ∉ v → chatMessageFrom (u ++ ':' :: v) = ⟨u, v⟩)
    ∧ (s.count ':' ≠ 1 → chatMessageFrom s = ChatMessage.default) :=
  ⟨fun hu hv => chatMessageFrom_of_no_colon hu hv,
   fun h => chatMessageFrom_of_length_ne_two
     (by rw [splitColon_length]; omega)⟩

theorem decode_split_characterization_witness :
    (':' ∉ ['a']) ∧ (':' ∉ ['b'])
    ∧ chatMessageFrom (['a'] ++ ':' :: ['b']) = ⟨['a'], ['b']⟩
    ∧ (['a', ':', 'b', ':', 'c'] : List Char).count ':' ≠ 1
    ∧ chatMessageFrom ['a', ':', 'b', ':', 'c'] = ChatMessage.default :=
  ⟨by decide, by decide,
   (decode_split_characterization ['a'] ['b'] ['a', ':', 'b', ':', 'c']).1
     (by decide) (by decide),
   by decide,
   (decode_split_characterization ['a'] ['b'] ['a', ':', 'b', ':', 'c']).2
     (by decide)⟩

theorem broadcastRun_no_failure {A W : Type} [DecidableEq A] (sender : A)
    (payload : List Char) (reg : List (A × W)) :
    broadcastRun sender payload (fun _ => false) reg
      = some ((reg.filter (fun e => e.fst ≠ sender)).map
          (fun e => (e.fst, payload))) := by
  induction reg with
  | nil => rfl
  | cons e rest ih =>
    by_cases he : e.fst = sender
    · simp [broadcastRun, he, List.filter_cons, ih]
    · simp [broadcastRun, he, List.filter_cons, ih]

/-- Claim C4: with every write succeeding, the broadcast loop delivers the
encoded message to exactly the registered identities different from the
sender, in registry order; in particular it delivers to none when the
sender is the only registrant. -/
theorem broadcast_except_delivers {A W : Type} [DecidableEq A]
    (sender : A) (m : ChatMessage) (reg : List (A × W)) :
    broadcastRun sender m.toString (fun _ => false) reg
      = some ((reg.filter (fun e => e.fst ≠ sender)).map
          (fun e => (e.fst, m.toString)))
    ∧ ∀ w : W, broadcastRun sender m.toString (fun _ => false) [(sender, w)]
        = some [] := by
  refine ⟨broadcastRun_no_failure sender m.toString reg, fun w => ?_⟩
  simp [broadcastRun_no_failure, List.filter_cons]

/-- Claim C5 counterexample: sender `0`, registry `[(1, _), (2, _)]`, and
the write to peer `1` fails.  The `.unwrap()` panics: the broadcast
returns `none` (task aborted), so peer `2` — contrary to the claim —
never receives the payload, and no unregister happens (the loop body
never touches the registry). -/
theorem broadcast_failure_aborts_cex :
    broadcastRun 0 [':'] (· == 1) ([(1, ()), (2, ())] : List (Nat × Unit)) = none
    ∧ broadcastRun 0 [':'] (· == 1) ([(1, ()), (2, ())] : List (Nat × Unit))
        ≠ some [(2, [':'])] := by
  decide

/-- Claim C5 amended: a delivery failure to one peer during broadcast is
not caught: the write result is unwrapped, so the whole broadcast task
panics — whenever some registered non-sender peer's write fails, the
broadcast run aborts (`none`): peers after the failing one receive
nothing, and no unregister is triggered. -/
theorem broadcast_failure_aborts {A W : Type} [DecidableEq A] (sender : A)
    (payload : List Char) (fails : A → Bool) (reg : List (A × W)) (e : A × W)
    (hmem : e ∈ reg) (hne : e.fst ≠ sender) (hf : fails e.fst = true) :
    broadcastRun sender payload fails reg = none := by
  induction reg with
  | nil => cases hmem
  | cons x rest ih =>
    rcases List.mem_cons.mp hmem with rfl | hmem'
    · simp [broadcastRun, hne, hf]
    · by_cases hx : x.fst = sender
      · simpa [broadcastRun, hx] using ih hmem'
      · by_cases hfx : fails x.fst
        · simp [broadcastRun, hx, hfx]
        · simp [broadcastRun, hx, hfx, ih hmem']

theorem broadcast_failure_aborts_witness :
    ((1, ()) ∈ ([(1, ()), (2, ())] : List (Nat × Unit)))
    ∧ ((1, ()) : Nat × Unit).fst ≠ (0 : Nat)
    ∧ ((· == 1) ((1, ()) : Nat × Unit).fst) = true
    ∧ broadcastRun 0 ['x'] (· == 1) ([(1, ()), (2, ())] : List (Nat × Unit))
        = none :=
  ⟨by decide, by decide, by decide,
   broadcast_failure_aborts 0 ['x'] (· == 1) [(1, ()), (2, ())] (1, ())
     (by decide) (by decide) (by decide)⟩

/-- Claim C6 counterexample: registering identity `1` that is already
present DOES insert a second entry: the code pushes unconditionally, so
after two registrations the registry holds `1` twice. -/
theorem register_duplicate_cex :
    (1 ∈ (register 1 () ([] : List (Nat × Unit))).map Prod.fst)
    ∧ ((register 1 () (register 1 () ([] : List (Nat × Unit)))).map
        Prod.fst).count 1 = 2 := by
  decide

/-- Claim C6 amended: `register` appends its entry unconditionally, with
no duplicate check: every registration increases the number of registry
entries for that identity by one, so registering an already-present
identity inserts a second entry (the at-most-once invariant is not
enforced by `register`). -/
theorem register_increments_count {A W : Type} [DecidableEq A]
    (a : A) (w : W) (reg : List (A × W)) :
    ((register a w reg).map Prod.fst).count a
      = (reg.map Prod.fst).count a + 1 := by
  simp [register, List.count_append]

/-- Claim C7: `unregister` is a no-op when the identity is absent: the
position scan finds no matching entry, so nothing is removed. -/
theorem unregister_absent_noop {A W : Type} [DecidableEq A]
    (a : A) (reg : List (A × W)) (h : a ∉ reg.map Prod.fst) :
    unregister a reg = reg := by
  rw [unregister]
  have hnone : reg.findIdx? (fun e => e.fst = a) = none := by
    rw [List.findIdx?_eq_none_iff]
    intro x hx
    simp only [decide_eq_false_iff_not]
    exact fun hxa => h (hxa ▸ List.mem_map_of_mem Prod.fst hx)
  rw [hnone]

theorem unregister_absent_noop_witness :
    ((0 : Nat) ∉ ([(1, ())] : List (Nat × Unit)).map Prod.fst)
    ∧ unregister 0 ([(1, ())] : List (Nat × Unit)) = [(1, ())] :=
  ⟨by decide, unregister_absent_noop 0 [(1, ())] (by decide)⟩

/-- Claim C8: a read returning zero bytes without error is a no-op
iteration: the queue gets no message, the registry loses no entry, and
the loop continues (the whole reader state is unchanged, so `closed`
stays as it was). -/
theorem reader_zero_read_noop {A W : Type} [DecidableEq A]
    (addr : A) (s : ReaderState A W) (data : List Char) :
    readerStep addr s (.ok 0 data) = s := by
  simp [readerStep]

/-- Claim C9: on a read error the reader unregisters this connection's
identity and terminates (`closed := true`); and this is the only reader
path that removes a registry entry — every `Ok` read leaves the registry
unchanged (the broadcast loop's body never mutates the registry either:
`broadcastRun` only writes payloads, and `register` only appends). -/
theorem reader_error_unregisters_closes {A W : Type} [DecidableEq A]
    (addr : A) (s : ReaderState A W) :
    readerStep addr s .err
      = { registry := unregister addr s.registry, queue := s.queue,
          closed := true }
    ∧ ∀ (numBytes : Nat) (data : List Char),
        (readerStep addr s (.ok numBytes data)).registry = s.registry := by
  refine ⟨rfl, fun numBytes data => ?_⟩
  rw [readerStep]
  split <;> rfl

/-- Claim C10: when neither field contains `':'`, decoding the encoding
of `m` gives back `m.username` exactly and, as content, a single space
prepended to `m.content`: the `": "` separator's space is retained in the
decoded content, never stripped. -/
theorem decode_encode_space_retained (m : ChatMessage)
    (hu : ':' ∉ m.username) (hc : ':' ∉ m.content) :
    chatMessageFrom m.toString = ⟨m.username, ' ' :: m.content⟩ := by
  rw [ChatMessage.toString]
  refine chatMessageFrom_of_no_colon hu ?_
  rw [List.mem_cons, not_or]
  exact ⟨by decide, hc⟩

theorem decode_encode_space_retained_witness :
    (':' ∉ (⟨['u'], ['w', 'x']⟩ : ChatMessage).username)
    ∧ (':' ∉ (⟨['u'], ['w', 'x']⟩ : ChatMessage).content)
    ∧ chatMessageFrom (ChatMessage.toString ⟨['u'], ['w', 'x']⟩)
        = ⟨['u'], ' ' :: ['w', 'x']⟩ :=
  ⟨by decide, by decide,
   decode_encode_space_retained ⟨['u'], ['w', 'x']⟩ (by decide) (by decide)⟩

end RustTcpChat
